import Mathlib

/-!
Shallow embedding of `scalar_sip_hash.h` (scalar SipHash) together with a
verification of the specification of that file.  64-bit words are modelled as
`Nat` with explicit reduction modulo `2 ^ 64` wherever the C code wraps, and
byte buffers as `List Nat` of byte values.
-/

/-- The four 64-bit state words `v0..v3` of `ScalarSipHashState`. -/
structure ScalarSipHashState where
  v0 : Nat
  v1 : Nat
  v2 : Nat
  v3 : Nat
deriving DecidableEq

/-- The constructor `ScalarSipHashState(key)`: xor the two key words into the
four initialization constants. -/
def ScalarSipHashState.init (k0 k1 : Nat) : ScalarSipHashState where
  v0 := 0x736f6d6570736575 ^^^ k0
  v1 := 0x646f72616e646f6d ^^^ k1
  v2 := 0x6c7967656e657261 ^^^ k0
  v3 := 0x7465646279746573 ^^^ k1

/-- `RotateLeft<bits>(v)`: `v << bits` wraps modulo `2 ^ 64` (`uint64_t`),
or-ed with `v >> (64 - bits)`. -/
def ScalarSipHashState.RotateLeft (bits v : Nat) : Nat :=
  let left := (v <<< bits) % 2 ^ 64
  let right := v >>> (64 - bits)
  left ||| right

/-- One iteration of the loop body of `Compress<rounds>` (the ARX network),
with every mutation of the C code as a sequential rebinding. -/
def ScalarSipHashState.CompressRound (s : ScalarSipHashState) : ScalarSipHashState :=
  let v0 := (s.v0 + s.v1) % 2 ^ 64
  let v2 := (s.v2 + s.v3) % 2 ^ 64
  let v1 := ScalarSipHashState.RotateLeft 13 s.v1
  let v3 := ScalarSipHashState.RotateLeft 16 s.v3
  let v1 := v1 ^^^ v0
  let v3 := v3 ^^^ v2
  let v0 := ScalarSipHashState.RotateLeft 32 v0
  let v2 := (v2 + v1) % 2 ^ 64
  let v0 := (v0 + v3) % 2 ^ 64
  let v1 := ScalarSipHashState.RotateLeft 17 v1
  let v3 := ScalarSipHashState.RotateLeft 21 v3
  let v1 := v1 ^^^ v2
  let v3 := v3 ^^^ v0
  let v2 := ScalarSipHashState.RotateLeft 32 v2
  ⟨v0, v1, v2, v3⟩

/-- `Compress<rounds>()`: `rounds` iterations of the loop body, first iteration
applied first. -/
def ScalarSipHashState.Compress (s : ScalarSipHashState) : Nat → ScalarSipHashState
  | 0 => s
  | n + 1 => (s.CompressRound).Compress n

/-- `Update(bytes)`: xor the packet into `v3`, run `Compress<2>`, xor the
packet into `v0`. -/
def ScalarSipHashState.Update (s : ScalarSipHashState) (packet : Nat) : ScalarSipHashState :=
  let s1 := { s with v3 := s.v3 ^^^ packet }
  let s2 := s1.Compress 2
  { s2 with v0 := s2.v0 ^^^ packet }

/-- `Finalize()`: xor `0xFF` into `v2`, run `Compress<4>`, fold the four words
together with xor. -/
def ScalarSipHashState.Finalize (s : ScalarSipHashState) : Nat :=
  let s1 := { s with v2 := s.v2 ^^^ 0xFF }
  let s2 := s1.Compress 4
  (s2.v0 ^^^ s2.v1) ^^^ (s2.v2 ^^^ s2.v3)

/-- All four state words fit in 64 bits. -/
def ScalarSipHashState.Bounded (s : ScalarSipHashState) : Prop :=
  s.v0 < 2 ^ 64 ∧ s.v1 < 2 ^ 64 ∧ s.v2 < 2 ^ 64 ∧ s.v3 < 2 ^ 64

/-- The little-endian (native) 64-bit word obtained from a byte list, as the
`memcpy` of the bytes into a `uint64_t` produces on a little-endian machine. -/
def packetOfBytes (bytes : List Nat) : Nat :=
  bytes.foldr (fun b acc => b % 256 + 256 * acc) 0

/-- Modelled from the spec: the generic streaming driver (`ComputeHash` of
`state_helpers.h`, whose source is not part of this repository snapshot) feeds
each full 8-byte packet of the buffer through `Update`, zero-pads the final
short packet up to 8 bytes and feeds it through `Update` as well, then calls
`Finalize` exactly once, so that `ceil(size / 8) * 8` bytes are read
logically. -/
def ComputeHash (s : ScalarSipHashState) (bytes : List Nat) : Nat :=
  if h : 8 ≤ bytes.length then
    ComputeHash (s.Update (packetOfBytes (bytes.take 8))) (bytes.drop 8)
  else if bytes = [] then
    s.Finalize
  else
    (s.Update (packetOfBytes (bytes ++ List.replicate (8 - bytes.length) 0))).Finalize
termination_by bytes.length
decreasing_by
  simp only [List.length_drop]
  omega

/-- `ScalarSipHash(key, bytes, size)`: delegate key, buffer and state type to
the generic driver. -/
def ScalarSipHash (k0 k1 : Nat) (bytes : List Nat) : Nat :=
  ComputeHash (ScalarSipHashState.init k0 k1) bytes

/-- The loop of `ReduceSipTreeHash`:
`for (i = 0; i < kNumLanes; ++i) state.Update(&hashes[i])`. -/
def reduceLoop (hashes : List Nat) (s : ScalarSipHashState) (i : Nat) : ScalarSipHashState :=
  if h : i < hashes.length then
    reduceLoop hashes (s.Update hashes[i]) (i + 1)
  else
    s
termination_by hashes.length - i
decreasing_by
  omega

/-- `ReduceSipTreeHash(key, hashes)`: drive one state over the lane array,
then finalize. -/
def ReduceSipTreeHash (k0 k1 : Nat) (hashes : List Nat) : Nat :=
  (reduceLoop hashes (ScalarSipHashState.init k0 k1) 0).Finalize

/-- The rotation exactly as the spec writes it: `(x << n) | (x >> (64 - n))`
on 64-bit words, with the shift amounts taken modulo 64. -/
def rotl64 (x n : Nat) : Nat :=
  ((x <<< (n % 64)) % 2 ^ 64) ||| (x >>> ((64 - n) % 64))

/-- The compression transformation exactly as the spec lists it, using the
spec rotation `rotl64`. -/
def specCompressRound (s : ScalarSipHashState) : ScalarSipHashState :=
  let v0 := (s.v0 + s.v1) % 2 ^ 64
  let v2 := (s.v2 + s.v3) % 2 ^ 64
  let v1 := rotl64 s.v1 13
  let v3 := rotl64 s.v3 16
  let v1 := v1 ^^^ v0
  let v3 := v3 ^^^ v2
  let v0 := rotl64 v0 32
  let v2 := (v2 + v1) % 2 ^ 64
  let v0 := (v0 + v3) % 2 ^ 64
  let v1 := rotl64 v1 17
  let v3 := rotl64 v3 21
  let v1 := v1 ^^^ v2
  let v3 := v3 ^^^ v0
  let v2 := rotl64 v2 32
  ⟨v0, v1, v2, v3⟩

/-- Absorption as the spec lists it: `v3 ^= packet`, two spec compression
rounds, `v0 ^= packet`. -/
def specAbsorb (packet : Nat) (s : ScalarSipHashState) : ScalarSipHashState :=
  let s1 := { s with v3 := s.v3 ^^^ packet }
  let s2 := specCompressRound^[2] s1
  { s2 with v0 := s2.v0 ^^^ packet }

/-- Finalization as the spec lists it: `v2 ^= 0xFF`, four spec compression
rounds, return `(v0 ^ v1) ^ (v2 ^ v3)`. -/
def specFinalize (s : ScalarSipHashState) : Nat :=
  let t := specCompressRound^[4] { s with v2 := s.v2 ^^^ 0xFF }
  (t.v0 ^^^ t.v1) ^^^ (t.v2 ^^^ t.v3)

/-- The spec's manual zero-padding of a buffer up to the next multiple of
8 bytes. -/
def padTo8 (bytes : List Nat) : List Nat :=
  bytes ++ List.replicate ((8 - bytes.length % 8) % 8) 0

/-- Split a zero-padded buffer into its sequence of full 8-byte packets. -/
def fullPackets (bytes : List Nat) : List Nat :=
  if h : bytes = [] then []
  else packetOfBytes (bytes.take 8) :: fullPackets (bytes.drop 8)
termination_by bytes.length
decreasing_by
  simp only [List.length_drop]
  have hpos : 0 < bytes.length := List.length_pos.mpr h
  omega

/-- The spec's packet-level description of a whole hash computation: a fresh
state from the key, one `Update` per packet in order, one `Finalize`. -/
def hashPackets (k0 k1 : Nat) (packets : List Nat) : Nat :=
  (packets.foldl ScalarSipHashState.Update (ScalarSipHashState.init k0 k1)).Finalize

/-! ### Helper lemmas -/

theorem compressRound_eq_spec (s : ScalarSipHashState) :
    s.CompressRound = specCompressRound s := rfl

theorem compress_eq_iterate (s : ScalarSipHashState) (R : Nat) :
    s.Compress R = specCompressRound^[R] s := by
  induction R generalizing s with
  | zero => rfl
  | succ n ih =>
    rw [Function.iterate_succ_apply]
    show (s.CompressRound).Compress n = _
    rw [ih, compressRound_eq_spec]

theorem rotateLeft_eq_standard (bits v : Nat) (h0 : 0 < bits) (h64 : bits < 64)
    (hv : v < 2 ^ 64) :
    ScalarSipHashState.RotateLeft bits v
      = (v % 2 ^ (64 - bits)) * 2 ^ bits + v / 2 ^ (64 - bits) := by
  have hsplit : (2 : Nat) ^ 64 = 2 ^ (64 - bits) * 2 ^ bits := by
    rw [← pow_add]
    congr 1
    omega
  have hdiv : v / 2 ^ (64 - bits) < 2 ^ bits := by
    apply Nat.div_lt_of_lt_mul
    rw [← hsplit]
    exact hv
  show (v <<< bits) % 2 ^ 64 ||| v >>> (64 - bits) = _
  rw [Nat.shiftLeft_eq, Nat.shiftRight_eq_div_pow, hsplit, Nat.mul_mod_mul_right,
    Nat.mul_comm (v % 2 ^ (64 - bits)) (2 ^ bits)]
  exact (Nat.mul_add_lt_is_or hdiv _).symm

theorem reduceLoop_eq_foldl (hashes : List Nat) :
    ∀ (s : ScalarSipHashState) (i : Nat),
      reduceLoop hashes s i = (hashes.drop i).foldl ScalarSipHashState.Update s := by
  refine reduceLoop.induct hashes
    (fun s i => reduceLoop hashes s i = (hashes.drop i).foldl ScalarSipHashState.Update s)
    ?_ ?_
  · intro s i h ih
    rw [reduceLoop, dif_pos h, ih, List.drop_eq_getElem_cons h, List.foldl_cons]
  · intro s i h
    rw [reduceLoop, dif_neg h, List.drop_eq_nil_of_le (by omega), List.foldl_nil]

theorem reduce_eq_hashPackets (k0 k1 : Nat) (lanes : List Nat) :
    ReduceSipTreeHash k0 k1 lanes = hashPackets k0 k1 lanes := by
  unfold ReduceSipTreeHash hashPackets
  rw [reduceLoop_eq_foldl, List.drop_zero]

theorem computeHash_eq_padded (s : ScalarSipHashState) (B : List Nat) :
    ComputeHash s B
      = ((fullPackets (padTo8 B)).foldl ScalarSipHashState.Update s).Finalize := by
  induction s, B using ComputeHash.induct with
  | case1 s B h ih =>
    have h8 : (B.take 8).length = 8 := by
      rw [List.length_take]
      omega
    have hpad : padTo8 B = B.take 8 ++ padTo8 (B.drop 8) := by
      unfold padTo8
      rw [List.length_drop]
      have hmod : (8 - (B.length - 8) % 8) % 8 = (8 - B.length % 8) % 8 := by
        omega
      rw [hmod, ← List.append_assoc, List.take_append_drop]
    have hne : B.take 8 ++ padTo8 (B.drop 8) ≠ [] := by
      intro hcontra
      have hlen := congrArg List.length hcontra
      simp only [List.length_append, List.length_nil, h8] at hlen
      omega
    have hfp : fullPackets (B.take 8 ++ padTo8 (B.drop 8))
        = packetOfBytes (B.take 8) :: fullPackets (padTo8 (B.drop 8)) := by
      conv_lhs => rw [fullPackets]
      rw [dif_neg hne, List.take_left' h8, List.drop_left' h8]
    rw [ComputeHash, dif_pos h, ih, hpad, hfp, List.foldl_cons]
  | case2 s h =>
    have hp : padTo8 [] = ([] : List Nat) := rfl
    have hfp : fullPackets ([] : List Nat) = [] := by
      rw [fullPackets]
      rfl
    rw [ComputeHash, dif_neg h, if_pos rfl, hp, hfp, List.foldl_nil]
  | case3 s B h hB =>
    have hlen : 0 < B.length := List.length_pos.mpr hB
    have hlt : B.length < 8 := by omega
    have hpad : padTo8 B = B ++ List.replicate (8 - B.length) 0 := by
      unfold padTo8
      have hmod : (8 - B.length % 8) % 8 = 8 - B.length := by omega
      rw [hmod]
    have hplen : (B ++ List.replicate (8 - B.length) 0).length = 8 := by
      simp only [List.length_append, List.length_replicate]
      omega
    have hpne : B ++ List.replicate (8 - B.length) 0 ≠ [] := by
      intro hcontra
      have hl := congrArg List.length hcontra
      rw [hplen] at hl
      simp at hl
    have hfpnil : fullPackets ([] : List Nat) = [] := by
      rw [fullPackets]
      rfl
    have hfp : fullPackets (B ++ List.replicate (8 - B.length) 0)
        = [packetOfBytes (B ++ List.replicate (8 - B.length) 0)] := by
      conv_lhs => rw [fullPackets]
      rw [dif_neg hpne, List.take_of_length_le (by omega),
        List.drop_eq_nil_of_le (by omega), hfpnil]
    rw [ComputeHash, dif_neg h, if_neg hB, hpad, hfp, List.foldl_cons,
      List.foldl_nil]

/-! ### Claim theorems -/

/-- C1: the compression permutation `Compress<R>` performs exactly `R`
iterations of the transformation the spec lists (`specCompressRound`), for
every round count `R` and every state; the only instantiations in the code
are `R = 2` inside `Update` and `R = 4` inside `Finalize`, which are the
definitions of those two operations. -/
theorem Compress_iterates_spec_round (R : Nat) (s : ScalarSipHashState) :
    s.Compress R = specCompressRound^[R] s :=
  compress_eq_iterate s R

/-- C2: for every 128-bit key `(k0, k1)`, construction sets the four state
words to exactly the four initialization constants xor-ed with the key words,
always succeeds (it is a total function), and produces 64-bit state words. -/
theorem init_matches_spec (k0 k1 : Nat) (h0 : k0 < 2 ^ 64) (h1 : k1 < 2 ^ 64) :
    (ScalarSipHashState.init k0 k1).v0 = 0x736f6d6570736575 ^^^ k0 ∧
    (ScalarSipHashState.init k0 k1).v1 = 0x646f72616e646f6d ^^^ k1 ∧
    (ScalarSipHashState.init k0 k1).v2 = 0x6c7967656e657261 ^^^ k0 ∧
    (ScalarSipHashState.init k0 k1).v3 = 0x7465646279746573 ^^^ k1 ∧
    (ScalarSipHashState.init k0 k1).Bounded :=
  ⟨rfl, rfl, rfl, rfl,
    Nat.xor_lt_two_pow (by norm_num) h0, Nat.xor_lt_two_pow (by norm_num) h1,
    Nat.xor_lt_two_pow (by norm_num) h0, Nat.xor_lt_two_pow (by norm_num) h1⟩

/-- Witness for C2 at the concrete key `(1, 2)`. -/
theorem init_matches_spec_witness :
    (ScalarSipHashState.init 1 2).v0 = 0x736f6d6570736575 ^^^ 1 ∧
    (ScalarSipHashState.init 1 2).v1 = 0x646f72616e646f6d ^^^ 2 ∧
    (ScalarSipHashState.init 1 2).v2 = 0x6c7967656e657261 ^^^ 1 ∧
    (ScalarSipHashState.init 1 2).v3 = 0x7465646279746573 ^^^ 2 ∧
    (ScalarSipHashState.init 1 2).Bounded :=
  init_matches_spec 1 2 (by norm_num) (by norm_num)

/-- C3: for every state and packet, `Update` is exactly the spec's three
steps: xor the packet into `v3`, two compression rounds, xor the packet into
`v0` (`specAbsorb`); it mutates all four state words (shown at a sample
state and packet). -/
theorem Update_matches_spec :
    (∀ (s : ScalarSipHashState) (p : Nat), s.Update p = specAbsorb p s) ∧
    (((ScalarSipHashState.init 0 0).Update 1).v0 ≠ (ScalarSipHashState.init 0 0).v0 ∧
     ((ScalarSipHashState.init 0 0).Update 1).v1 ≠ (ScalarSipHashState.init 0 0).v1 ∧
     ((ScalarSipHashState.init 0 0).Update 1).v2 ≠ (ScalarSipHashState.init 0 0).v2 ∧
     ((ScalarSipHashState.init 0 0).Update 1).v3 ≠ (ScalarSipHashState.init 0 0).v3) := by
  constructor
  · intro s p
    simp only [ScalarSipHashState.Update, specAbsorb]
    rw [compress_eq_iterate]
  · exact ⟨by decide, by decide, by decide, by decide⟩

/-- C4: for every state, `Finalize` is exactly the spec's three steps: xor
`0xFF` into `v2`, four compression rounds, return `(v0 ^ v1) ^ (v2 ^ v3)`
(`specFinalize`). -/
theorem Finalize_matches_spec (s : ScalarSipHashState) :
    s.Finalize = specFinalize s := by
  simp only [ScalarSipHashState.Finalize, specFinalize]
  rw [compress_eq_iterate]

/-- C5: for every key and lane list, `ReduceSipTreeHash` equals a fresh state
built from the key, one `Update` per lane in array order, then one
`Finalize` (`hashPackets`). -/
theorem ReduceSipTreeHash_matches_spec (k0 k1 : Nat) (lanes : List Nat) :
    ReduceSipTreeHash k0 k1 lanes = hashPackets k0 k1 lanes :=
  reduce_eq_hashPackets k0 k1 lanes

/-- C6: for every key and byte buffer whose length is not a multiple of 8,
`ScalarSipHash` equals the digest of the buffer manually zero-padded up to
the next multiple of 8 and split into full 8-byte packets fed through
`Update` and one `Finalize`. -/
theorem ScalarSipHash_padding_correct (k0 k1 : Nat) (B : List Nat)
    (hm : B.length % 8 ≠ 0) :
    ScalarSipHash k0 k1 B = hashPackets k0 k1 (fullPackets (padTo8 B)) :=
  computeHash_eq_padded (ScalarSipHashState.init k0 k1) B

/-- Witness for C6 at the 3-byte buffer `[1, 2, 3]` with the zero key. -/
theorem ScalarSipHash_padding_correct_witness :
    ([1, 2, 3] : List Nat).length % 8 ≠ 0 ∧
    ScalarSipHash 0 0 [1, 2, 3] = hashPackets 0 0 (fullPackets (padTo8 [1, 2, 3])) :=
  ⟨by decide, ScalarSipHash_padding_correct 0 0 [1, 2, 3] (by decide)⟩

/-- C7: the tree reduction is order-sensitive: there are a key and two
distinct lane values whose swap changes the digest. -/
theorem ReduceSipTreeHash_order_sensitive :
    ∃ k0 k1 a b : Nat, a ≠ b ∧
      ReduceSipTreeHash k0 k1 [a, b] ≠ ReduceSipTreeHash k0 k1 [b, a] := by
  refine ⟨0, 0, 0, 1, by decide, ?_⟩
  rw [reduce_eq_hashPackets, reduce_eq_hashPackets]
  decide

/-- C8: the hash is deterministic: the digest depends only on the key and the
ordered sequence of packets absorbed, so any two buffers that yield the same
packet sequence (in particular, the same buffer hashed twice) give the same
digest. -/
theorem ScalarSipHash_deterministic (k0 k1 : Nat) (B1 B2 : List Nat)
    (h : fullPackets (padTo8 B1) = fullPackets (padTo8 B2)) :
    ScalarSipHash k0 k1 B1 = ScalarSipHash k0 k1 B2 := by
  show ComputeHash _ _ = ComputeHash _ _
  rw [computeHash_eq_padded, computeHash_eq_padded, h]

/-- Witness for C8: `[1]` and `[1, 0, 0, 0, 0, 0, 0, 0]` produce the same
packet sequence and hence the same digest. -/
theorem ScalarSipHash_deterministic_witness :
    ScalarSipHash 0 0 [1] = ScalarSipHash 0 0 [1, 0, 0, 0, 0, 0, 0, 0] :=
  ScalarSipHash_deterministic 0 0 [1] [1, 0, 0, 0, 0, 0, 0, 0]
    (congrArg fullPackets (by decide))

/-- C9: every rotation amount the implementation instantiates (13, 16, 17,
21, 32) lies strictly between 0 and 64, as does its complement `64 - n`, so
no shift by 0 or 64 occurs; and under that precondition `RotateLeft`
computes the standard 64-bit left rotation. -/
theorem RotateLeft_amounts_safe :
    (∀ n ∈ [13, 16, 17, 21, 32], 1 ≤ n ∧ n ≤ 63 ∧ 1 ≤ 64 - n ∧ 64 - n ≤ 63) ∧
    ∀ bits v : Nat, 0 < bits → bits < 64 → v < 2 ^ 64 →
      ScalarSipHashState.RotateLeft bits v
        = (v % 2 ^ (64 - bits)) * 2 ^ bits + v / 2 ^ (64 - bits) := by
  constructor
  · decide
  · intro bits v h0 h64 hv
    exact rotateLeft_eq_standard bits v h0 h64 hv

/-- Witness for C9 at `bits = 13`, `v = 3`. -/
theorem RotateLeft_amounts_safe_witness :
    (1 ≤ 13 ∧ 13 ≤ 63 ∧ 1 ≤ 64 - 13 ∧ 64 - 13 ≤ 63) ∧
    ScalarSipHashState.RotateLeft 13 3
      = (3 % 2 ^ (64 - 13)) * 2 ^ 13 + 3 / 2 ^ (64 - 13) :=
  ⟨RotateLeft_amounts_safe.1 13 (by decide),
    RotateLeft_amounts_safe.2 13 3 (by decide) (by decide) (by decide)⟩

/-- C10: updating with the all-zero packet is exactly two compression rounds
with no packet contribution, and it is not a no-op (shown at a sample
state). -/
theorem Update_zero_packet :
    (∀ s : ScalarSipHashState, s.Update 0 = s.Compress 2) ∧
    (ScalarSipHashState.init 0 0).Update 0 ≠ ScalarSipHashState.init 0 0 := by
  constructor
  · intro s
    simp only [ScalarSipHashState.Update, Nat.xor_zero]
  · decide
